import Mathlib

/-! Multi-layer rule engine (`app/src/multi_layer.c`)

A shallow embedding of the listener that derives then-layers from if-layers,
together with the layer service it calls into and the event dispatch that
re-enters it.

* The layer state (`zmk_keymap_layers_state_t`, an unsigned fixed-width integer
  declared in `zmk/keymap.h`) is a natural number read as a bitset.  Every
  operation below sets or clears one bit or masks with `&`, so for layer indices
  below the width no result leaves the range of the type
  (`set_layer_lt`, `clear_layer_lt`) and no reduction modulo `2 ^ width` is needed.
* Event dispatch is a parameter of the embedding: `no_dispatch` gives one
  non-re-entrant pass, `layer_state_changed_listener cfgs fuel` gives the
  firmware behaviour in which every primitive call re-enters the listener.
  `fuel` bounds the nesting depth of listener invocations.
* An evaluation yields the calls it issued (each with the live state at the
  moment of the call) and the final state, or `none` when the nesting bound was
  exceeded before the evaluation returned.
-/

namespace MultiLayer

/-- The bitset of active layers: bit `i` set means layer `i` is active. -/
abbrev zmk_keymap_layers_state_t := Nat

/-- One multi-layer configuration (`struct multi_layer_cfg`): the bitmask of the
if-layers and the number of the then-layer.  The source stores the then-layer in
an `int8_t`; layer numbers are non-negative, so it is a natural number here. -/
structure multi_layer_cfg where
  if_layers_state_mask : zmk_keymap_layers_state_t
  then_layer : Nat
  deriving DecidableEq, Repr

/-- Zephyr `BIT(n)`, that is `1 << n`. -/
def BIT (n : Nat) : Nat := 1 <<< n

/-- A primitive call into the layer service. -/
inductive Call where
  | activate (layer : Nat)
  | deactivate (layer : Nat)
  deriving DecidableEq, Repr

/-- A primitive call together with the live layer state at the moment it is issued. -/
structure Issued where
  call : Call
  live : zmk_keymap_layers_state_t
  deriving DecidableEq, Repr

/-- The calls issued so far and, when the evaluation has returned, the layer
state it returned in (`none`: the nesting bound was exceeded). -/
abbrev Outcome := List Issued × Option zmk_keymap_layers_state_t

/-- What raising a layer-state-changed event on a given state does. -/
abbrev Dispatch := zmk_keymap_layers_state_t → Outcome

/-- Sequencing of two stretches of evaluation: the second runs on the state the
first returned in, and does not run when the first never returned. -/
def Outcome.andThen (o : Outcome) (k : zmk_keymap_layers_state_t → Outcome) : Outcome :=
  match o.2 with
  | none => (o.1, none)
  | some s => (o.1 ++ (k s).1, (k s).2)

/-- Modelled from the spec: `zmk_keymap_layer_active` (`isActive`) of the layer
service, which lives in `keymap.c`; bit `layer` of the state says whether the
layer is active. -/
def zmk_keymap_layer_active (state : zmk_keymap_layers_state_t) (layer : Nat) : Bool :=
  state.testBit layer

/-- The state with the bit of `layer` set. -/
def set_layer (state : zmk_keymap_layers_state_t) (layer : Nat) : zmk_keymap_layers_state_t :=
  state ||| BIT layer

/-- The state with the bit of `layer` cleared (`state & ~BIT(layer)`, written
without a complement). -/
def clear_layer (state : zmk_keymap_layers_state_t) (layer : Nat) : zmk_keymap_layers_state_t :=
  state ^^^ (state &&& BIT layer)

/-- Modelled from the spec: `zmk_keymap_layer_activate` of the layer service,
which lives in `keymap.c`; it sets the layer bit and raises the
layer-state-changed event, which is dispatched synchronously before the call
returns. -/
def zmk_keymap_layer_activate (raise : Dispatch) (layer : Nat)
    (state : zmk_keymap_layers_state_t) : Outcome :=
  (⟨Call.activate layer, state⟩ :: (raise (set_layer state layer)).1,
   (raise (set_layer state layer)).2)

/-- Modelled from the spec: `zmk_keymap_layer_deactivate` of the layer service,
which lives in `keymap.c`; it clears the layer bit and raises the
layer-state-changed event, which is dispatched synchronously before the call
returns. -/
def zmk_keymap_layer_deactivate (raise : Dispatch) (layer : Nat)
    (state : zmk_keymap_layers_state_t) : Outcome :=
  (⟨Call.deactivate layer, state⟩ :: (raise (clear_layer state layer)).1,
   (raise (clear_layer state layer)).2)

/-- `multi_layer_activate`: activate the layer unless it is active already. -/
def multi_layer_activate (raise : Dispatch) (layer : Nat)
    (state : zmk_keymap_layers_state_t) : Outcome :=
  if !zmk_keymap_layer_active state layer then
    zmk_keymap_layer_activate raise layer state
  else
    ([], some state)

/-- `multi_layer_deactivate`: deactivate the layer if it is active. -/
def multi_layer_deactivate (raise : Dispatch) (layer : Nat)
    (state : zmk_keymap_layers_state_t) : Outcome :=
  if zmk_keymap_layer_active state layer then
    zmk_keymap_layer_deactivate raise layer state
  else
    ([], some state)

/-- The body of the listener's `for` loop for one configuration: `layers_state`
is the snapshot read at the start of the listener, `live` the state of the layer
service when the body runs. -/
def loop_body (raise : Dispatch) (layers_state : zmk_keymap_layers_state_t)
    (cfg : multi_layer_cfg) (live : zmk_keymap_layers_state_t) : Outcome :=
  let mask := cfg.if_layers_state_mask
  if (layers_state &&& mask) == mask then
    multi_layer_activate raise cfg.then_layer live
  else
    multi_layer_deactivate raise cfg.then_layer live

/-- The listener's `for` loop over the configurations that are still to be
examined. -/
def scan (raise : Dispatch) (layers_state : zmk_keymap_layers_state_t) :
    List multi_layer_cfg → zmk_keymap_layers_state_t → Outcome
  | [], live => ([], some live)
  | cfg :: rest, live =>
    (loop_body raise layers_state cfg live).andThen (scan raise layers_state rest)

/-- Dispatch that delivers no event: a primitive call only changes the layer bit. -/
def no_dispatch : Dispatch := fun state => ([], some state)

/-- One non-re-entrant pass of `layer_state_changed_listener` on the state `state`. -/
def listener_pass (cfgs : List multi_layer_cfg) (state : zmk_keymap_layers_state_t) : Outcome :=
  scan no_dispatch state cfgs state

/-- `layer_state_changed_listener` as it runs in the firmware: the snapshot is
read once, and every primitive call re-enters the listener on the changed state.
`fuel` is the number of nested listener invocations that are allowed. -/
def layer_state_changed_listener (cfgs : List multi_layer_cfg) : Nat → Dispatch
  | 0, _ => ([], none)
  | fuel + 1, state => scan (layer_state_changed_listener cfgs fuel) state cfgs state

/-- The if-condition of a configuration on a snapshot, as the listener tests it. -/
def if_condition (layers_state : zmk_keymap_layers_state_t) (cfg : multi_layer_cfg) : Bool :=
  (layers_state &&& cfg.if_layers_state_mask) == cfg.if_layers_state_mask

/-- A primitive call changes the live state: an activation finds its layer
inactive, a deactivation finds it active. -/
def Issued.changes_state (e : Issued) : Prop :=
  match e.call with
  | Call.activate layer => zmk_keymap_layer_active e.live layer = false
  | Call.deactivate layer => zmk_keymap_layer_active e.live layer = true

instance (e : Issued) : Decidable e.changes_state := by
  unfold Issued.changes_state
  cases e.call <;> infer_instance

/-- The chained table `[{if {A}, then B}, {if {B}, then C}]`. -/
def chain_cfgs (A B C : Nat) : List multi_layer_cfg :=
  [⟨BIT A, B⟩, ⟨BIT B, C⟩]

/-- The tri-layer table `[{if {LOWER, RAISE}, then ADJUST}]`. -/
def tri_layer_cfgs (LOWER RAISE ADJUST : Nat) : List multi_layer_cfg :=
  [⟨BIT LOWER ||| BIT RAISE, ADJUST⟩]

/-- A two-rule table with a cyclic dependency: layer 1 is derived from layer 2
and layer 2 from layer 1. -/
def cyclic_cfgs : List multi_layer_cfg :=
  [⟨BIT 2, 1⟩, ⟨BIT 1, 2⟩]

/-- Well-formedness of a table for a layer state of `width` bits, as the
configuration tooling is trusted to ensure it: every if-mask is non-empty and
inside the width, every then-layer is a layer index below the width. -/
def valid_cfgs (width : Nat) (cfgs : List multi_layer_cfg) : Bool :=
  cfgs.all fun c =>
    c.if_layers_state_mask != 0 && decide (c.if_layers_state_mask < 2 ^ width) &&
      decide (c.then_layer < width)

/-- The if-mask that `MULTI_LAYER_DECL` builds with `UTIL_LISTIFY` and
`IF_LAYER_BIT`: the expression `BIT(l0) | BIT(l1) | ... | 0` over the listed
if-layers. -/
def if_layers_mask : List Nat → zmk_keymap_layers_state_t
  | [] => 0
  | i :: rest => BIT i ||| if_layers_mask rest

/-- `MULTI_LAYER_DECL`: the configuration entry of one keymap node, from its
`if_layers` and `then_layer` properties. -/
def MULTI_LAYER_DECL (if_layers : List Nat) (then_layer : Nat) : multi_layer_cfg :=
  { if_layers_state_mask := if_layers_mask if_layers, then_layer := then_layer }

/-- The layer a primitive call targets. -/
def Call.layer : Call → Nat
  | Call.activate layer => layer
  | Call.deactivate layer => layer

/-- The primitive call the loop body issues for a configuration whose then-layer
disagrees with its if-condition on the snapshot. -/
def issued_call (layers_state : zmk_keymap_layers_state_t) (cfg : multi_layer_cfg) : Call :=
  if if_condition layers_state cfg then Call.activate cfg.then_layer
  else Call.deactivate cfg.then_layer

/-- The layer state that primitive call writes. -/
def written_state (layers_state : zmk_keymap_layers_state_t) (cfg : multi_layer_cfg)
    (live : zmk_keymap_layers_state_t) : zmk_keymap_layers_state_t :=
  if if_condition layers_state cfg then set_layer live cfg.then_layer
  else clear_layer live cfg.then_layer

/-- The call a configuration gives rise to when the layer state `state` is
examined against the snapshot: none when its then-layer already agrees with its
if-condition. -/
def expected_call (layers_state state : zmk_keymap_layers_state_t) (cfg : multi_layer_cfg) :
    Option Call :=
  if zmk_keymap_layer_active state cfg.then_layer = if_condition layers_state cfg then none
  else some (issued_call layers_state cfg)

/-- The table `[{if {1}, then 3}, {if {2}, then 3}]`, two rules with one then-layer. -/
def shared_then_cfgs : List multi_layer_cfg :=
  [⟨BIT 1, 3⟩, ⟨BIT 2, 3⟩]

/-! ## Bit-level facts about the layer state -/

theorem BIT_eq (n : Nat) : BIT n = 2 ^ n := by
  simp [BIT, Nat.one_shiftLeft]

theorem testBit_BIT (n i : Nat) : (BIT n).testBit i = decide (n = i) := by
  rw [BIT_eq, Nat.testBit_two_pow]

theorem testBit_set_layer (s n i : Nat) :
    (set_layer s n).testBit i = (s.testBit i || decide (n = i)) := by
  simp [set_layer, testBit_BIT]

theorem testBit_clear_layer (s n i : Nat) :
    (clear_layer s n).testBit i = (s.testBit i && !decide (n = i)) := by
  simp only [clear_layer, Nat.testBit_xor, Nat.testBit_and, testBit_BIT]
  cases s.testBit i <;> cases decide (n = i) <;> rfl

/-- Setting the bit of a layer below the width keeps the state inside the width. -/
theorem set_layer_lt (w s n : Nat) (hs : s < 2 ^ w) (hn : n < w) : set_layer s n < 2 ^ w := by
  unfold set_layer
  rw [BIT_eq]
  exact Nat.or_lt_two_pow hs (Nat.pow_lt_pow_right (by decide) hn)

/-- Clearing a bit keeps the state inside the width. -/
theorem clear_layer_lt (w s n : Nat) (hs : s < 2 ^ w) : clear_layer s n < 2 ^ w := by
  unfold clear_layer
  have h : s &&& BIT n < 2 ^ w := by
    rw [Nat.and_comm]
    exact Nat.and_lt_two_pow _ hs
  exact Nat.xor_lt_two_pow hs h

theorem set_layer_of_active (s n : Nat) (h : s.testBit n = true) : set_layer s n = s := by
  apply Nat.eq_of_testBit_eq
  intro i
  rw [testBit_set_layer]
  by_cases hi : n = i
  · subst hi; simp [h]
  · simp [hi]

theorem clear_layer_of_inactive (s n : Nat) (h : s.testBit n = false) : clear_layer s n = s := by
  apply Nat.eq_of_testBit_eq
  intro i
  rw [testBit_clear_layer]
  by_cases hi : n = i
  · subst hi; simp [h]
  · simp [hi]

/-- The listener's test `(layers_state & mask) == mask` holds exactly when every
bit of the mask is set in the snapshot. -/
theorem mask_test_iff (s mask : Nat) :
    ((s &&& mask) == mask) = true ↔ ∀ i, mask.testBit i = true → s.testBit i = true := by
  rw [beq_iff_eq]
  constructor
  · intro h i hi
    have := congrArg (fun x => x.testBit i) h
    simp only [Nat.testBit_and, hi, Bool.and_true] at this
    exact this
  · intro h
    apply Nat.eq_of_testBit_eq
    intro i
    rw [Nat.testBit_and]
    cases hm : mask.testBit i
    · simp
    · simp [h i hm]

/-! ## Sequencing -/

theorem andThen_of_some (o : Outcome) (k : zmk_keymap_layers_state_t → Outcome)
    (s : zmk_keymap_layers_state_t) (h : o.2 = some s) :
    o.andThen k = (o.1 ++ (k s).1, (k s).2) := by
  unfold Outcome.andThen
  rw [h]

theorem andThen_of_none (o : Outcome) (k : zmk_keymap_layers_state_t → Outcome)
    (h : o.2 = none) : o.andThen k = (o.1, none) := by
  unfold Outcome.andThen
  rw [h]

theorem andThen_nil_some (k : zmk_keymap_layers_state_t → Outcome)
    (s : zmk_keymap_layers_state_t) : Outcome.andThen ([], some s) k = k s := by
  simp [Outcome.andThen]

theorem scan_cons (raise : Dispatch) (snap : zmk_keymap_layers_state_t) (c : multi_layer_cfg)
    (rest : List multi_layer_cfg) (live : zmk_keymap_layers_state_t) :
    scan raise snap (c :: rest) live =
      (loop_body raise snap c live).andThen (scan raise snap rest) := rfl

/-! ## One non-re-entrant pass -/

/-- Without event dispatch the loop body returns, and in the state it returns in
the then-layer carries the value of the if-condition on the snapshot while every
other layer is as it was. -/
theorem loop_body_no_dispatch (snap : zmk_keymap_layers_state_t) (c : multi_layer_cfg)
    (live : zmk_keymap_layers_state_t) :
    ∃ s1, (loop_body no_dispatch snap c live).2 = some s1 ∧
      ∀ i, s1.testBit i = if c.then_layer = i then if_condition snap c else live.testBit i := by
  unfold loop_body
  simp only
  by_cases hc : ((snap &&& c.if_layers_state_mask) == c.if_layers_state_mask) = true
  · rw [if_pos hc]
    unfold multi_layer_activate zmk_keymap_layer_active
    cases ha : live.testBit c.then_layer
    · refine ⟨set_layer live c.then_layer, by simp [zmk_keymap_layer_activate, no_dispatch], ?_⟩
      intro i
      rw [testBit_set_layer]
      by_cases hi : c.then_layer = i
      · simp [hi, if_condition, hc]
      · simp [hi]
    · refine ⟨live, by simp, ?_⟩
      intro i
      by_cases hi : c.then_layer = i
      · subst hi; simp [if_condition, hc, ha]
      · simp [hi]
  · rw [if_neg hc]
    unfold multi_layer_deactivate zmk_keymap_layer_active
    cases ha : live.testBit c.then_layer
    · refine ⟨live, by simp, ?_⟩
      intro i
      by_cases hi : c.then_layer = i
      · subst hi; simp [if_condition, hc, ha]
      · simp [hi]
    · refine ⟨clear_layer live c.then_layer,
        by simp [zmk_keymap_layer_deactivate, no_dispatch], ?_⟩
      intro i
      rw [testBit_clear_layer]
      by_cases hi : c.then_layer = i
      · simp [hi, if_condition, hc]
      · simp [hi]

/-- The loop without event dispatch returns.  A layer that no remaining
configuration targets keeps its bit, and a layer that some configuration targets
ends with the if-condition of the last configuration targeting it. -/
theorem scan_no_dispatch_spec (snap : zmk_keymap_layers_state_t) :
    ∀ (rules : List multi_layer_cfg) (live : zmk_keymap_layers_state_t),
      ∃ s2, (scan no_dispatch snap rules live).2 = some s2 ∧
        (∀ i, (∀ c ∈ rules, c.then_layer ≠ i) → s2.testBit i = live.testBit i) ∧
        (∀ pre r post, rules = pre ++ r :: post →
          (∀ c ∈ post, c.then_layer ≠ r.then_layer) →
          s2.testBit r.then_layer = if_condition snap r) := by
  intro rules
  induction rules with
  | nil =>
    intro live
    refine ⟨live, rfl, fun _ _ => rfl, ?_⟩
    intro pre r post h
    simp at h
  | cons c rest ih =>
    intro live
    obtain ⟨s1, h1, hb1⟩ := loop_body_no_dispatch snap c live
    obtain ⟨s2, h2, hframe, hlast⟩ := ih s1
    refine ⟨s2, ?_, ?_, ?_⟩
    · rw [scan_cons, andThen_of_some _ _ s1 h1]
      exact h2
    · intro i hi
      rw [hframe i (fun d hd => hi d (List.mem_cons_of_mem _ hd)), hb1 i,
        if_neg (hi c (List.mem_cons_self _ _))]
    · intro pre r post hsplit hpost
      cases pre with
      | nil =>
        simp only [List.nil_append, List.cons.injEq] at hsplit
        obtain ⟨hcr, hrest⟩ := hsplit
        subst hcr
        subst hrest
        rw [hframe c.then_layer hpost, hb1 c.then_layer, if_pos rfl]
      | cons p pre2 =>
        simp only [List.cons_append, List.cons.injEq] at hsplit
        exact hlast pre2 r post hsplit.2 hpost

/-- The mask `BIT(L1) | BIT(L2)` is satisfied exactly when both layers are active. -/
theorem if_condition_two (s : zmk_keymap_layers_state_t) (r : multi_layer_cfg) (L1 L2 : Nat)
    (hmask : r.if_layers_state_mask = BIT L1 ||| BIT L2) :
    if_condition s r = true ↔ (s.testBit L1 = true ∧ s.testBit L2 = true) := by
  unfold if_condition
  rw [mask_test_iff, hmask]
  constructor
  · intro h
    exact ⟨h L1 (by simp [testBit_BIT]), h L2 (by simp [testBit_BIT])⟩
  · intro h i hi
    simp only [Nat.testBit_or, testBit_BIT, Bool.or_eq_true, decide_eq_true_eq] at hi
    rcases hi with hi | hi
    · rw [← hi]; exact h.1
    · rw [← hi]; exact h.2

/-! ## Calls issued by the loop body -/

/-- The loop body either issues no call, and then the then-layer already agrees
with the if-condition on the snapshot, or it issues exactly one primitive call,
which changes the live state and after which the dispatch runs on the changed
state. -/
theorem loop_body_cases (raise : Dispatch) (snap : zmk_keymap_layers_state_t)
    (c : multi_layer_cfg) (live : zmk_keymap_layers_state_t) :
    (loop_body raise snap c live = ([], some live) ∧
        zmk_keymap_layer_active live c.then_layer = if_condition snap c) ∨
      (∃ e x, e.changes_state ∧ e.live = live ∧
        (e.call = Call.activate c.then_layer ∨ e.call = Call.deactivate c.then_layer) ∧
        loop_body raise snap c live = (e :: (raise x).1, (raise x).2)) := by
  unfold loop_body
  simp only
  by_cases hc : ((snap &&& c.if_layers_state_mask) == c.if_layers_state_mask) = true
  · rw [if_pos hc]
    unfold multi_layer_activate
    cases ha : zmk_keymap_layer_active live c.then_layer
    · right
      exact ⟨⟨Call.activate c.then_layer, live⟩, set_layer live c.then_layer, ha, rfl,
        Or.inl rfl, by simp [zmk_keymap_layer_activate]⟩
    · left
      exact ⟨by simp, by simp [if_condition, hc]⟩
  · rw [if_neg hc]
    unfold multi_layer_deactivate
    cases ha : zmk_keymap_layer_active live c.then_layer
    · left
      exact ⟨by simp, by simp [if_condition, hc]⟩
    · right
      exact ⟨⟨Call.deactivate c.then_layer, live⟩, clear_layer live c.then_layer, ha, rfl,
        Or.inr rfl, by simp [zmk_keymap_layer_deactivate]⟩

/-- When every call issued under the dispatch changes the live state, so does
every call issued by the loop. -/
theorem scan_changes_state (raise : Dispatch) (snap : zmk_keymap_layers_state_t)
    (hraise : ∀ x, ∀ e ∈ (raise x).1, e.changes_state) :
    ∀ (rules : List multi_layer_cfg) (live : zmk_keymap_layers_state_t),
      ∀ e ∈ (scan raise snap rules live).1, e.changes_state := by
  intro rules
  induction rules with
  | nil =>
    intro live e he
    simp [scan] at he
  | cons c rest ih =>
    intro live e he
    rw [scan_cons] at he
    rcases loop_body_cases raise snap c live with ⟨hq, _⟩ | ⟨e0, x, hch, _, _, hb⟩
    · rw [hq, andThen_nil_some] at he
      exact ih live e he
    · cases hx : (raise x).2 with
      | none =>
        rw [andThen_of_none _ _ (by rw [hb]; exact hx), hb] at he
        simp only [List.mem_cons] at he
        rcases he with he | he
        · rw [he]; exact hch
        · exact hraise x e he
      | some y =>
        rw [andThen_of_some _ _ y (by rw [hb]; exact hx), hb] at he
        simp only [List.cons_append, List.mem_cons, List.mem_append] at he
        rcases he with he | he | he
        · rw [he]; exact hch
        · exact hraise x e he
        · exact ih y e he

theorem listener_changes_state (cfgs : List multi_layer_cfg) :
    ∀ (fuel : Nat) (s : zmk_keymap_layers_state_t),
      ∀ e ∈ (layer_state_changed_listener cfgs fuel s).1, e.changes_state := by
  intro fuel
  induction fuel with
  | zero =>
    intro s e he
    simp [layer_state_changed_listener] at he
  | succ n ih =>
    intro s e he
    exact scan_changes_state (layer_state_changed_listener cfgs n) s ih cfgs s e he

/-! ## Fixed points of re-entrant evaluation -/

/-- When the then-layer already agrees with the if-condition on the snapshot,
the loop body issues no call. -/
theorem loop_body_settled (raise : Dispatch) (snap : zmk_keymap_layers_state_t)
    (c : multi_layer_cfg) (live : zmk_keymap_layers_state_t)
    (h : zmk_keymap_layer_active live c.then_layer = if_condition snap c) :
    loop_body raise snap c live = ([], some live) := by
  unfold if_condition at h
  unfold loop_body
  simp only
  by_cases hc : ((snap &&& c.if_layers_state_mask) == c.if_layers_state_mask) = true
  · rw [hc] at h
    rw [if_pos hc]
    simp [multi_layer_activate, h]
  · rw [if_neg hc]
    rw [Bool.not_eq_true] at hc
    rw [hc] at h
    simp [multi_layer_deactivate, h]

/-- When the then-layer of every remaining configuration already agrees with its
if-condition on the snapshot, the loop issues no call and leaves the state as it is. -/
theorem scan_settled (raise : Dispatch) (snap : zmk_keymap_layers_state_t) :
    ∀ (rules : List multi_layer_cfg) (live : zmk_keymap_layers_state_t),
      (∀ c ∈ rules, zmk_keymap_layer_active live c.then_layer = if_condition snap c) →
      scan raise snap rules live = ([], some live) := by
  intro rules
  induction rules with
  | nil => intro live _; rfl
  | cons c rest ih =>
    intro live h
    rw [scan_cons, loop_body_settled raise snap c live (h c (List.mem_cons_self _ _)),
      andThen_nil_some]
    exact ih live (fun d hd => h d (List.mem_cons_of_mem _ hd))

/-- A state in which every then-layer agrees with its if-condition is left
alone by the listener, at whatever nesting bound. -/
theorem listener_of_settled (cfgs : List multi_layer_cfg) (s : zmk_keymap_layers_state_t)
    (h : ∀ c ∈ cfgs, zmk_keymap_layer_active s c.then_layer = if_condition s c) (fuel : Nat) :
    layer_state_changed_listener cfgs (fuel + 1) s = ([], some s) :=
  scan_settled (layer_state_changed_listener cfgs fuel) s cfgs s h

/-- When the dispatch only ever returns in settled states, the loop either
issues no call at all or returns in a settled state. -/
theorem scan_returns_settled (cfgs : List multi_layer_cfg) (raise : Dispatch)
    (snap : zmk_keymap_layers_state_t)
    (hraise : ∀ x y, (raise x).2 = some y →
      ∀ c ∈ cfgs, zmk_keymap_layer_active y c.then_layer = if_condition y c) :
    ∀ (rules : List multi_layer_cfg) (live s2 : zmk_keymap_layers_state_t),
      (scan raise snap rules live).2 = some s2 →
      (s2 = live ∧
          ∀ c ∈ rules, zmk_keymap_layer_active live c.then_layer = if_condition snap c) ∨
        (∀ c ∈ cfgs, zmk_keymap_layer_active s2 c.then_layer = if_condition s2 c) := by
  intro rules
  induction rules with
  | nil =>
    intro live s2 h
    left
    simp only [scan, Option.some.injEq] at h
    exact ⟨h.symm, by simp⟩
  | cons c rest ih =>
    intro live s2 h
    rw [scan_cons] at h
    rcases loop_body_cases raise snap c live with ⟨hq, hagree⟩ | ⟨e0, x, _, _, _, hb⟩
    · rw [hq, andThen_nil_some] at h
      rcases ih live s2 h with ⟨h1, h2⟩ | h3
      · left
        refine ⟨h1, ?_⟩
        intro d hd
        rcases List.mem_cons.mp hd with hd | hd
        · rw [hd]; exact hagree
        · exact h2 d hd
      · right; exact h3
    · right
      cases hx : (raise x).2 with
      | none =>
        rw [andThen_of_none _ _ (by rw [hb]; exact hx)] at h
        simp at h
      | some y =>
        rw [andThen_of_some _ _ y (by rw [hb]; exact hx)] at h
        rcases ih y s2 h with ⟨h1, _⟩ | h3
        · rw [h1]; exact hraise x y hx
        · exact h3

/-- Whenever the re-entrant listener returns, it returns in a state in which
every then-layer agrees with its if-condition. -/
theorem listener_returns_settled (cfgs : List multi_layer_cfg) :
    ∀ (fuel : Nat) (s s2 : zmk_keymap_layers_state_t),
      (layer_state_changed_listener cfgs fuel s).2 = some s2 →
      ∀ c ∈ cfgs, zmk_keymap_layer_active s2 c.then_layer = if_condition s2 c := by
  intro fuel
  induction fuel with
  | zero =>
    intro s s2 h
    simp [layer_state_changed_listener] at h
  | succ n ih =>
    intro s s2 h
    rcases scan_returns_settled cfgs (layer_state_changed_listener cfgs n) s ih cfgs s s2 h
      with ⟨h1, h2⟩ | h3
    · rw [h1]; exact h2
    · exact h3

/-! ## Symbolic evaluation of the loop body -/

theorem loop_body_activate (raise : Dispatch) (snap : zmk_keymap_layers_state_t)
    (c : multi_layer_cfg) (live : zmk_keymap_layers_state_t)
    (hc : if_condition snap c = true) (ha : zmk_keymap_layer_active live c.then_layer = false) :
    loop_body raise snap c live =
      (⟨Call.activate c.then_layer, live⟩ :: (raise (set_layer live c.then_layer)).1,
        (raise (set_layer live c.then_layer)).2) := by
  unfold if_condition at hc
  simp [loop_body, hc, multi_layer_activate, ha, zmk_keymap_layer_activate]

theorem loop_body_deactivate (raise : Dispatch) (snap : zmk_keymap_layers_state_t)
    (c : multi_layer_cfg) (live : zmk_keymap_layers_state_t)
    (hc : if_condition snap c = false) (ha : zmk_keymap_layer_active live c.then_layer = true) :
    loop_body raise snap c live =
      (⟨Call.deactivate c.then_layer, live⟩ :: (raise (clear_layer live c.then_layer)).1,
        (raise (clear_layer live c.then_layer)).2) := by
  unfold if_condition at hc
  simp [loop_body, hc, multi_layer_deactivate, ha, zmk_keymap_layer_deactivate]

/-- A one-layer mask `BIT(L)` is satisfied exactly when layer `L` is active. -/
theorem if_condition_one (s : zmk_keymap_layers_state_t) (L T : Nat) :
    if_condition s ⟨BIT L, T⟩ = s.testBit L := by
  rw [Bool.eq_iff_iff]
  unfold if_condition
  rw [mask_test_iff]
  constructor
  · intro h
    exact h L (by simp [testBit_BIT])
  · intro h i hi
    simp only [testBit_BIT, decide_eq_true_eq] at hi
    rw [← hi]; exact h

theorem clear_set_layer (s n : Nat) (h : s.testBit n = false) :
    clear_layer (set_layer s n) n = s := by
  apply Nat.eq_of_testBit_eq
  intro i
  rw [testBit_clear_layer, testBit_set_layer]
  by_cases hi : n = i
  · subst hi; simp [h]
  · simp [hi]

/-! ## The tri-layer table -/

theorem tri_layer_condition (LOWER RAISE ADJUST : Nat) (s : zmk_keymap_layers_state_t) :
    if_condition s ⟨BIT LOWER ||| BIT RAISE, ADJUST⟩ =
      (zmk_keymap_layer_active s LOWER && zmk_keymap_layer_active s RAISE) := by
  rw [Bool.eq_iff_iff, if_condition_two s _ LOWER RAISE rfl]
  simp [zmk_keymap_layer_active]

theorem tri_layer_quiet (LOWER RAISE ADJUST : Nat) (s : zmk_keymap_layers_state_t) (fuel : Nat)
    (h : zmk_keymap_layer_active s ADJUST =
      (zmk_keymap_layer_active s LOWER && zmk_keymap_layer_active s RAISE)) :
    layer_state_changed_listener (tri_layer_cfgs LOWER RAISE ADJUST) (fuel + 1) s =
      ([], some s) := by
  apply listener_of_settled
  intro c hc
  simp only [tri_layer_cfgs, List.mem_singleton] at hc
  subst hc
  rw [tri_layer_condition]
  exact h

/-! ## The chained table -/

theorem chain_settled (A B C : Nat) (s : zmk_keymap_layers_state_t) (fuel : Nat)
    (hA : s.testBit A = true) (hB : s.testBit B = true) (hC : s.testBit C = true) :
    layer_state_changed_listener (chain_cfgs A B C) (fuel + 1) s = ([], some s) := by
  apply listener_of_settled
  intro c hc
  simp only [chain_cfgs, List.mem_cons, List.mem_singleton, List.not_mem_nil, or_false] at hc
  rcases hc with hc | hc
  · subst hc
    rw [if_condition_one]
    simp [zmk_keymap_layer_active, hA, hB]
  · subst hc
    rw [if_condition_one]
    simp [zmk_keymap_layer_active, hB, hC]

/-- From a state with `A` and `B` active and `C` inactive the listener activates
`C` and returns. -/
theorem chain_inner (A B C : Nat) (s : zmk_keymap_layers_state_t) (fuel : Nat)
    (hA : s.testBit A = true) (hB : s.testBit B = true) (hC : s.testBit C = false) :
    layer_state_changed_listener (chain_cfgs A B C) (fuel + 2) s =
      ([⟨Call.activate C, s⟩], some (set_layer s C)) := by
  have h1 : loop_body (layer_state_changed_listener (chain_cfgs A B C) (fuel + 1)) s
      ⟨BIT A, B⟩ s = ([], some s) := by
    apply loop_body_settled
    rw [if_condition_one]
    simp [zmk_keymap_layer_active, hA, hB]
  have h2 : loop_body (layer_state_changed_listener (chain_cfgs A B C) (fuel + 1)) s
      ⟨BIT B, C⟩ s = ([⟨Call.activate C, s⟩], some (set_layer s C)) := by
    rw [loop_body_activate _ _ _ _ (by rw [if_condition_one]; exact hB)
      (by simp [zmk_keymap_layer_active, hC])]
    rw [chain_settled A B C (set_layer s C) fuel
      (by simp [testBit_set_layer, hA]) (by simp [testBit_set_layer, hB])
      (by simp [testBit_set_layer])]
  show scan _ s [⟨BIT A, B⟩, ⟨BIT B, C⟩] s = _
  rw [scan_cons, h1, andThen_nil_some, scan_cons, h2]
  simp [Outcome.andThen, scan]

/-- The complete run of the chained table from the state in which exactly `A`
is active. -/
theorem chain_run (A B C : Nat) (hAB : A ≠ B) (hBC : B ≠ C) (hAC : A ≠ C) (fuel : Nat) :
    layer_state_changed_listener (chain_cfgs A B C) (fuel + 3) (BIT A) =
      ([⟨Call.activate B, BIT A⟩,
        ⟨Call.activate C, set_layer (BIT A) B⟩,
        ⟨Call.deactivate C, set_layer (set_layer (BIT A) B) C⟩,
        ⟨Call.activate C, set_layer (BIT A) B⟩],
       some (set_layer (set_layer (BIT A) B) C)) := by
  have hA0 : (BIT A).testBit A = true := by simp [testBit_BIT]
  have hB0 : (BIT A).testBit B = false := by simp [testBit_BIT, hAB]
  have hA1 : (set_layer (BIT A) B).testBit A = true := by simp [testBit_set_layer, hA0]
  have hB1 : (set_layer (BIT A) B).testBit B = true := by simp [testBit_set_layer]
  have hC1 : (set_layer (BIT A) B).testBit C = false := by
    simp [testBit_set_layer, testBit_BIT, hAC, hBC]
  have hin := chain_inner A B C (set_layer (BIT A) B) fuel hA1 hB1 hC1
  have h1 : loop_body (layer_state_changed_listener (chain_cfgs A B C) (fuel + 2)) (BIT A)
      ⟨BIT A, B⟩ (BIT A) =
      ([⟨Call.activate B, BIT A⟩, ⟨Call.activate C, set_layer (BIT A) B⟩],
        some (set_layer (set_layer (BIT A) B) C)) := by
    rw [loop_body_activate _ _ _ _ (by rw [if_condition_one]; exact hA0)
      (by simp [zmk_keymap_layer_active, hB0])]
    show (_ :: (layer_state_changed_listener _ _ (set_layer (BIT A) B)).1,
      (layer_state_changed_listener _ _ (set_layer (BIT A) B)).2) = _
    rw [hin]
  have h2 : loop_body (layer_state_changed_listener (chain_cfgs A B C) (fuel + 2)) (BIT A)
      ⟨BIT B, C⟩ (set_layer (set_layer (BIT A) B) C) =
      ([⟨Call.deactivate C, set_layer (set_layer (BIT A) B) C⟩,
        ⟨Call.activate C, set_layer (BIT A) B⟩],
        some (set_layer (set_layer (BIT A) B) C)) := by
    rw [loop_body_deactivate _ _ _ _ (by rw [if_condition_one]; exact hB0)
      (by simp [zmk_keymap_layer_active, testBit_set_layer])]
    show (_ :: (layer_state_changed_listener _ _
      (clear_layer (set_layer (set_layer (BIT A) B) C) C)).1,
      (layer_state_changed_listener _ _
        (clear_layer (set_layer (set_layer (BIT A) B) C) C)).2) = _
    rw [clear_set_layer _ _ hC1, hin]
  show scan _ (BIT A) [⟨BIT A, B⟩, ⟨BIT B, C⟩] (BIT A) = _
  rw [scan_cons, h1]
  simp only [Outcome.andThen]
  rw [scan_cons, h2]
  simp [Outcome.andThen, scan]

/-! ## The cyclic table -/

theorem cyclic_settled_zero (fuel : Nat) :
    layer_state_changed_listener cyclic_cfgs (fuel + 1) 0 = ([], some 0) :=
  listener_of_settled cyclic_cfgs 0 (by decide) fuel

theorem cyclic_settled_six (fuel : Nat) :
    layer_state_changed_listener cyclic_cfgs (fuel + 1) 6 = ([], some 6) :=
  listener_of_settled cyclic_cfgs 6 (by decide) fuel

/-- From the state `{2}` the listener activates layer 1, then deactivates layer 2
and so re-enters on the state `{1}`. -/
theorem cyclic_from_four (n : Nat)
    (h : (layer_state_changed_listener cyclic_cfgs n 2).2 = none) :
    (layer_state_changed_listener cyclic_cfgs (n + 1) 4).2 = none := by
  show (scan _ 4 [⟨BIT 2, 1⟩, ⟨BIT 1, 2⟩] 4).2 = none
  rw [scan_cons, loop_body_activate _ 4 ⟨BIT 2, 1⟩ 4 (by decide) (by decide)]
  have e1 : set_layer 4 1 = 6 := by decide
  simp only [e1]
  cases n with
  | zero => simp [Outcome.andThen, layer_state_changed_listener]
  | succ m =>
    rw [cyclic_settled_six m]
    rw [andThen_of_some _ _ 6 rfl, scan_cons,
      loop_body_deactivate _ 4 ⟨BIT 1, 2⟩ 6 (by decide) (by decide)]
    have e2 : clear_layer 6 2 = 2 := by decide
    simp only [e2]
    simp [Outcome.andThen, h]

/-- From the state `{1}` the listener deactivates layer 1, then activates layer 2
and so re-enters on the state `{2}`. -/
theorem cyclic_from_two (n : Nat)
    (h : (layer_state_changed_listener cyclic_cfgs n 2).2 = none) :
    (layer_state_changed_listener cyclic_cfgs (n + 2) 2).2 = none := by
  show (scan _ 2 [⟨BIT 2, 1⟩, ⟨BIT 1, 2⟩] 2).2 = none
  rw [scan_cons, loop_body_deactivate _ 2 ⟨BIT 2, 1⟩ 2 (by decide) (by decide)]
  have e1 : clear_layer 2 1 = 0 := by decide
  simp only [e1]
  rw [cyclic_settled_zero n, andThen_of_some _ _ 0 rfl, scan_cons,
    loop_body_activate _ 2 ⟨BIT 1, 2⟩ 0 (by decide) (by decide)]
  have e2 : set_layer 0 2 = 4 := by decide
  simp only [e2]
  simp [Outcome.andThen, cyclic_from_four n h]

/-- On the cyclic table, started with exactly layer 1 active, the listener never
returns: whatever the nesting bound, it is exceeded. -/
theorem cyclic_never_returns :
    ∀ n, (layer_state_changed_listener cyclic_cfgs n 2).2 = none := by
  intro n
  induction n using Nat.strong_induction_on with
  | _ n ih =>
    match n with
    | 0 => rfl
    | 1 =>
      show (scan _ 2 [⟨BIT 2, 1⟩, ⟨BIT 1, 2⟩] 2).2 = none
      rw [scan_cons, loop_body_deactivate _ 2 ⟨BIT 2, 1⟩ 2 (by decide) (by decide)]
      simp [Outcome.andThen, layer_state_changed_listener]
    | m + 2 => exact cyclic_from_two m (ih m (by omega))

/-! ## Tables with pairwise distinct then-layers -/

theorem then_layer_after_split (pre post : List multi_layer_cfg) (r : multi_layer_cfg)
    (h : ((pre ++ r :: post).map multi_layer_cfg.then_layer).Nodup) :
    ∀ c ∈ post, c.then_layer ≠ r.then_layer := by
  intro c hc hEq
  rw [List.map_append, List.map_cons] at h
  have h2 := (List.nodup_append.mp h).2.1
  have h3 := (List.nodup_cons.mp h2).1
  apply h3
  rw [← hEq]
  exact List.mem_map_of_mem _ hc

/-- With pairwise distinct then-layers, the state a pass returns in is fixed bit
by bit by the set of configurations, whatever their order. -/
theorem pass_bit_of_nodup (snap : zmk_keymap_layers_state_t) (cfgs : List multi_layer_cfg)
    (hnodup : (cfgs.map multi_layer_cfg.then_layer).Nodup)
    (live s2 : zmk_keymap_layers_state_t) (h : (scan no_dispatch snap cfgs live).2 = some s2)
    (i : Nat) :
    (∀ r ∈ cfgs, r.then_layer = i → s2.testBit i = if_condition snap r) ∧
      ((∀ r ∈ cfgs, r.then_layer ≠ i) → s2.testBit i = live.testBit i) := by
  obtain ⟨s3, h3, hframe, hlast⟩ := scan_no_dispatch_spec snap cfgs live
  rw [h] at h3
  cases h3
  refine ⟨?_, hframe i⟩
  intro r hr hri
  obtain ⟨pre, post, hsplit⟩ := List.append_of_mem hr
  rw [← hri]
  refine hlast pre r post hsplit ?_
  rw [hsplit] at hnodup
  exact then_layer_after_split pre post r hnodup

/-! ## The claims -/

/-- C1 (conjunction correctness): in one non-re-entrant pass over any table, for
a rule with if-mask `BIT(L1) | BIT(L2)` whose then-layer `T` is the then-layer of
no other rule of the table, the pass returns, and in the state it returns in `T`
is active if and only if both `L1` and `L2` are active in the snapshot read at
the start of the pass, whatever the state of `T` was before. -/
theorem C1_conjunction_correctness (pre post : List multi_layer_cfg) (r : multi_layer_cfg)
    (L1 L2 : Nat) (s : zmk_keymap_layers_state_t)
    (hmask : r.if_layers_state_mask = BIT L1 ||| BIT L2)
    (hother : ∀ c ∈ pre ++ post, c.then_layer ≠ r.then_layer) :
    ∃ s2, (listener_pass (pre ++ r :: post) s).2 = some s2 ∧
      (zmk_keymap_layer_active s2 r.then_layer = true ↔
        (zmk_keymap_layer_active s L1 = true ∧ zmk_keymap_layer_active s L2 = true)) := by
  obtain ⟨s2, h2, _, hlast⟩ := scan_no_dispatch_spec s (pre ++ r :: post) s
  refine ⟨s2, h2, ?_⟩
  unfold zmk_keymap_layer_active
  rw [hlast pre r post rfl (fun c hc => hother c (List.mem_append_right _ hc))]
  exact if_condition_two s r L1 L2 hmask

theorem C1_conjunction_correctness_witness :
    ∃ s2, (listener_pass ([⟨BIT 1, 4⟩] ++ ⟨BIT 1 ||| BIT 2, 3⟩ :: [⟨BIT 3, 5⟩]) 10).2 = some s2 ∧
      (zmk_keymap_layer_active s2 3 = true ↔
        (zmk_keymap_layer_active 10 1 = true ∧ zmk_keymap_layer_active 10 2 = true)) :=
  C1_conjunction_correctness [⟨BIT 1, 4⟩] [⟨BIT 3, 5⟩] ⟨BIT 1 ||| BIT 2, 3⟩ 1 2 10 rfl
    (by decide)

/-- C2 (idempotence under re-entrant evaluation): whenever a call of the
re-entrant listener returns, a second call on the state it returned in issues no
primitive call and returns in that same state. -/
theorem C2_reentrant_idempotence (cfgs : List multi_layer_cfg) (fuel : Nat)
    (s s2 : zmk_keymap_layers_state_t)
    (h : (layer_state_changed_listener cfgs fuel s).2 = some s2) (fuel2 : Nat) :
    layer_state_changed_listener cfgs (fuel2 + 1) s2 = ([], some s2) :=
  listener_of_settled cfgs s2 (listener_returns_settled cfgs fuel s s2 h) fuel2

theorem C2_reentrant_idempotence_witness :
    (layer_state_changed_listener (chain_cfgs 1 2 3) 3 2).2 = some 14 ∧
      layer_state_changed_listener (chain_cfgs 1 2 3) 1 14 = ([], some 14) :=
  ⟨by decide, C2_reentrant_idempotence (chain_cfgs 1 2 3) 3 2 14 (by decide) 0⟩

/-- C3 (no self-activation, no self-deactivation): every primitive call issued
during re-entrant evaluation, nested invocations included and also when the
evaluation never returns, changes the live state: an activation is issued only
when its layer is inactive in the live state, a deactivation only when it is
active.  In particular a rule whose condition holds and whose then-layer is
already active issues no call, and so does a rule whose condition fails and
whose then-layer is already inactive. -/
theorem C3_calls_change_live_state (cfgs : List multi_layer_cfg) (fuel : Nat)
    (s : zmk_keymap_layers_state_t) :
    (∀ e ∈ (layer_state_changed_listener cfgs fuel s).1, e.changes_state) ∧
      (∀ (raise : Dispatch) (c : multi_layer_cfg) (live : zmk_keymap_layers_state_t),
        ((s &&& c.if_layers_state_mask) == c.if_layers_state_mask) = true →
        zmk_keymap_layer_active live c.then_layer = true →
        loop_body raise s c live = ([], some live)) ∧
      (∀ (raise : Dispatch) (c : multi_layer_cfg) (live : zmk_keymap_layers_state_t),
        ((s &&& c.if_layers_state_mask) == c.if_layers_state_mask) = false →
        zmk_keymap_layer_active live c.then_layer = false →
        loop_body raise s c live = ([], some live)) := by
  refine ⟨listener_changes_state cfgs fuel s, ?_, ?_⟩
  · intro raise c live hc ha
    exact loop_body_settled raise s c live (by rw [ha]; exact hc.symm)
  · intro raise c live hc ha
    exact loop_body_settled raise s c live (by rw [ha]; exact hc.symm)

theorem C3_calls_change_live_state_witness :
    Issued.changes_state ⟨Call.deactivate 3, 14⟩ ∧
      loop_body (layer_state_changed_listener (chain_cfgs 1 2 3) 2) 2 ⟨BIT 1, 2⟩ 6 =
        ([], some 6) ∧
      loop_body (layer_state_changed_listener (chain_cfgs 1 2 3) 2) 2 ⟨BIT 2, 3⟩ 2 =
        ([], some 2) :=
  ⟨(C3_calls_change_live_state (chain_cfgs 1 2 3) 3 2).1 ⟨Call.deactivate 3, 14⟩ (by decide),
    (C3_calls_change_live_state (chain_cfgs 1 2 3) 3 2).2.1 _ ⟨BIT 1, 2⟩ 6 (by decide)
      (by decide),
    (C3_calls_change_live_state (chain_cfgs 1 2 3) 3 2).2.2 _ ⟨BIT 2, 3⟩ 2 (by decide)
      (by decide)⟩

/-- C4 (order sensitivity, last rule wins): in one non-re-entrant pass over any
table, for the last rule in table order that targets a layer `T`, the pass
returns, and in the state it returns in `T` is active if and only if that rule
satisfies `(snapshot & ifMask) == ifMask`; earlier rules targeting `T` have no
influence on the final state of `T`. -/
theorem C4_last_rule_wins (pre post : List multi_layer_cfg) (r : multi_layer_cfg)
    (s : zmk_keymap_layers_state_t)
    (hlast : ∀ c ∈ post, c.then_layer ≠ r.then_layer) :
    ∃ s2, (listener_pass (pre ++ r :: post) s).2 = some s2 ∧
      (zmk_keymap_layer_active s2 r.then_layer = true ↔
        (s &&& r.if_layers_state_mask) = r.if_layers_state_mask) := by
  obtain ⟨s2, h2, _, hl⟩ := scan_no_dispatch_spec s (pre ++ r :: post) s
  refine ⟨s2, h2, ?_⟩
  unfold zmk_keymap_layer_active
  rw [hl pre r post rfl hlast]
  unfold if_condition
  exact beq_iff_eq

theorem C4_last_rule_wins_witness :
    ∃ s2, (listener_pass ([⟨BIT 1, 3⟩] ++ ⟨BIT 2, 3⟩ :: [⟨BIT 1, 4⟩]) 2).2 = some s2 ∧
      (zmk_keymap_layer_active s2 3 = true ↔ (2 &&& BIT 2) = BIT 2) :=
  C4_last_rule_wins [⟨BIT 1, 3⟩] [⟨BIT 1, 4⟩] ⟨BIT 2, 3⟩ 2 (by decide)

/-- C5 (tri-layer scenario): for the one-rule table
`[{if {LOWER, RAISE}, then ADJUST}]` with pairwise distinct layers and any
initial state, re-entrant evaluation returns (a nesting bound of two suffices)
and the complete sequence of primitive calls is: the single call
`activate(ADJUST)` when LOWER and RAISE are both active and ADJUST is inactive;
the single call `deactivate(ADJUST)` when they are not both active and ADJUST is
active; no call in every other case. -/
theorem C5_tri_layer (LOWER RAISE ADJUST : Nat) (_hLR : LOWER ≠ RAISE) (hLA : LOWER ≠ ADJUST)
    (hRA : RAISE ≠ ADJUST) (s : zmk_keymap_layers_state_t) (fuel : Nat) :
    ((zmk_keymap_layer_active s LOWER && zmk_keymap_layer_active s RAISE) = true →
        zmk_keymap_layer_active s ADJUST = false →
        layer_state_changed_listener (tri_layer_cfgs LOWER RAISE ADJUST) (fuel + 2) s =
          ([⟨Call.activate ADJUST, s⟩], some (set_layer s ADJUST))) ∧
      ((zmk_keymap_layer_active s LOWER && zmk_keymap_layer_active s RAISE) = false →
        zmk_keymap_layer_active s ADJUST = true →
        layer_state_changed_listener (tri_layer_cfgs LOWER RAISE ADJUST) (fuel + 2) s =
          ([⟨Call.deactivate ADJUST, s⟩], some (clear_layer s ADJUST))) ∧
      (zmk_keymap_layer_active s ADJUST =
          (zmk_keymap_layer_active s LOWER && zmk_keymap_layer_active s RAISE) →
        layer_state_changed_listener (tri_layer_cfgs LOWER RAISE ADJUST) (fuel + 2) s =
          ([], some s)) := by
  refine ⟨?_, ?_, ?_⟩
  · intro hboth hadj
    show scan _ s [⟨BIT LOWER ||| BIT RAISE, ADJUST⟩] s = _
    rw [scan_cons, loop_body_activate _ _ _ _ (by rw [tri_layer_condition]; exact hboth) hadj]
    show Outcome.andThen (_ :: (layer_state_changed_listener
      (tri_layer_cfgs LOWER RAISE ADJUST) (fuel + 1) (set_layer s ADJUST)).1,
      (layer_state_changed_listener
        (tri_layer_cfgs LOWER RAISE ADJUST) (fuel + 1) (set_layer s ADJUST)).2) _ = _
    rw [tri_layer_quiet LOWER RAISE ADJUST (set_layer s ADJUST) fuel (by
      simp only [zmk_keymap_layer_active, testBit_set_layer] at hboth ⊢
      simp [hLA.symm, hRA.symm, hboth])]
    simp [Outcome.andThen, scan]
  · intro hboth hadj
    show scan _ s [⟨BIT LOWER ||| BIT RAISE, ADJUST⟩] s = _
    rw [scan_cons, loop_body_deactivate _ _ _ _ (by rw [tri_layer_condition]; exact hboth) hadj]
    show Outcome.andThen (_ :: (layer_state_changed_listener
      (tri_layer_cfgs LOWER RAISE ADJUST) (fuel + 1) (clear_layer s ADJUST)).1,
      (layer_state_changed_listener
        (tri_layer_cfgs LOWER RAISE ADJUST) (fuel + 1) (clear_layer s ADJUST)).2) _ = _
    rw [tri_layer_quiet LOWER RAISE ADJUST (clear_layer s ADJUST) fuel (by
      simp only [zmk_keymap_layer_active, testBit_clear_layer] at hboth ⊢
      simp [hLA.symm, hRA.symm, hboth])]
    simp [Outcome.andThen, scan]
  · intro hsame
    exact tri_layer_quiet LOWER RAISE ADJUST s (fuel + 1) hsame

theorem C5_tri_layer_witness :
    layer_state_changed_listener (tri_layer_cfgs 1 2 3) 2 6 =
        ([⟨Call.activate 3, 6⟩], some (set_layer 6 3)) ∧
      layer_state_changed_listener (tri_layer_cfgs 1 2 3) 2 12 =
        ([⟨Call.deactivate 3, 12⟩], some (clear_layer 12 3)) ∧
      layer_state_changed_listener (tri_layer_cfgs 1 2 3) 2 2 = ([], some 2) ∧
      layer_state_changed_listener (tri_layer_cfgs 1 2 3) 2 14 = ([], some 14) :=
  ⟨(C5_tri_layer 1 2 3 (by decide) (by decide) (by decide) 6 0).1 (by decide) (by decide),
    (C5_tri_layer 1 2 3 (by decide) (by decide) (by decide) 12 0).2.1 (by decide) (by decide),
    (C5_tri_layer 1 2 3 (by decide) (by decide) (by decide) 2 0).2.2 (by decide),
    (C5_tri_layer 1 2 3 (by decide) (by decide) (by decide) 14 0).2.2 (by decide)⟩

/-- C6 (chained rules reach the full chain): for the table
`[{if {A}, then B}, {if {B}, then C}]` with pairwise distinct layers, started
from the state in which exactly `A` is active, re-entrant evaluation returns (a
nesting bound of three suffices) and in the state it returns in `A`, `B` and `C`
are all active. -/
theorem C6_chain_reaches_full_chain (A B C : Nat) (hAB : A ≠ B) (hBC : B ≠ C) (hAC : A ≠ C)
    (fuel : Nat) :
    ∃ s2, (layer_state_changed_listener (chain_cfgs A B C) (fuel + 3) (BIT A)).2 = some s2 ∧
      zmk_keymap_layer_active s2 A = true ∧ zmk_keymap_layer_active s2 B = true ∧
      zmk_keymap_layer_active s2 C = true := by
  refine ⟨set_layer (set_layer (BIT A) B) C, ?_, ?_, ?_, ?_⟩
  · rw [chain_run A B C hAB hBC hAC fuel]
  · simp [zmk_keymap_layer_active, testBit_set_layer, testBit_BIT]
  · simp [zmk_keymap_layer_active, testBit_set_layer, testBit_BIT]
  · simp [zmk_keymap_layer_active, testBit_set_layer, testBit_BIT]

theorem C6_chain_reaches_full_chain_witness :
    ∃ s2, (layer_state_changed_listener (chain_cfgs 1 2 3) (0 + 3) (BIT 1)).2 = some s2 ∧
      zmk_keymap_layer_active s2 1 = true ∧ zmk_keymap_layer_active s2 2 = true ∧
      zmk_keymap_layer_active s2 3 = true :=
  C6_chain_reaches_full_chain 1 2 3 (by decide) (by decide) (by decide) 0

/-- C7, evaluated at the failing input: on the chained table with `A = 1`,
`B = 2`, `C = 3`, started from the state `{A}`, the evaluation returns in
`{A, B, C}` but its trace is `activate(B)`, `activate(C)`, `deactivate(C)`,
`activate(C)`, so it holds two calls `activate(C)`, not one.  The call
`deactivate(C)` is issued by the outer invocation on the snapshot it read at its
start, at a moment when `B`, the only if-layer of `C`, is active in the live
state.  With the same two rules in the other order every activation occurs
exactly once. -/
theorem C7_chain_activates_C_twice :
    (layer_state_changed_listener (chain_cfgs 1 2 3) 3 (BIT 1)).2 = some 14 ∧
      ((layer_state_changed_listener (chain_cfgs 1 2 3) 3 (BIT 1)).1.map Issued.call).count
        (Call.activate 3) = 2 ∧
      ¬ (((layer_state_changed_listener (chain_cfgs 1 2 3) 3 (BIT 1)).1.map Issued.call).count
          (Call.activate 2) = 1 ∧
        ((layer_state_changed_listener (chain_cfgs 1 2 3) 3 (BIT 1)).1.map Issued.call).count
          (Call.activate 3) = 1) ∧
      (layer_state_changed_listener (chain_cfgs 1 2 3) 3 (BIT 1)).1 =
        [⟨Call.activate 2, 2⟩, ⟨Call.activate 3, 6⟩, ⟨Call.deactivate 3, 14⟩,
          ⟨Call.activate 3, 6⟩] ∧
      zmk_keymap_layer_active 14 2 = true ∧
      layer_state_changed_listener [⟨BIT 2, 3⟩, ⟨BIT 1, 2⟩] 3 (BIT 1) =
        ([⟨Call.activate 2, 2⟩, ⟨Call.activate 3, 6⟩], some 14) := by
  decide

/-- The trace of the chained table does not depend on the layer numbers: for
the table `[{if {A}, then B}, {if {B}, then C}]` with pairwise distinct layers,
started from the state in which exactly `A` is active, re-entrant evaluation
issues `activate(B)`, `activate(C)`, `deactivate(C)`, `activate(C)` under every
nesting bound of at least three, so `activate(C)` is issued twice. -/
theorem chain_trace_calls (A B C : Nat) (hAB : A ≠ B) (hBC : B ≠ C) (hAC : A ≠ C)
    (fuel : Nat) :
    (layer_state_changed_listener (chain_cfgs A B C) (fuel + 3) (BIT A)).1.map Issued.call =
        [Call.activate B, Call.activate C, Call.deactivate C, Call.activate C] ∧
      ((layer_state_changed_listener (chain_cfgs A B C) (fuel + 3) (BIT A)).1.map
        Issued.call).count (Call.activate B) = 1 ∧
      ((layer_state_changed_listener (chain_cfgs A B C) (fuel + 3) (BIT A)).1.map
        Issued.call).count (Call.activate C) = 2 := by
  rw [chain_run A B C hAB hBC hAC fuel]
  refine ⟨rfl, ?_, ?_⟩
  · simp [List.count_cons, hBC.symm]
  · simp [List.count_cons, hBC]

theorem chain_trace_calls_example :
    (layer_state_changed_listener (chain_cfgs 1 2 3) (0 + 3) (BIT 1)).1.map Issued.call =
        [Call.activate 2, Call.activate 3, Call.deactivate 3, Call.activate 3] ∧
      ((layer_state_changed_listener (chain_cfgs 1 2 3) (0 + 3) (BIT 1)).1.map
        Issued.call).count (Call.activate 2) = 1 ∧
      ((layer_state_changed_listener (chain_cfgs 1 2 3) (0 + 3) (BIT 1)).1.map
        Issued.call).count (Call.activate 3) = 2 :=
  chain_trace_calls 1 2 3 (by decide) (by decide) (by decide) 0

theorem cyclic_cfgs_valid (w : Nat) : valid_cfgs (w + 3) cyclic_cfgs = true := by
  have h8 : 8 ≤ 2 ^ (w + 3) := by
    rw [Nat.pow_add]
    have := Nat.one_le_two_pow (n := w)
    omega
  have h2 : BIT 2 = 4 := by decide
  have h1 : BIT 1 = 2 := by decide
  simp only [valid_cfgs, cyclic_cfgs, List.all_cons, List.all_nil, h1, h2, Bool.and_true,
    Bool.and_eq_true, bne_iff_ne, ne_eq, decide_eq_true_eq]
  exact ⟨⟨⟨by decide, Nat.lt_of_lt_of_le (by decide) h8⟩, by omega⟩,
    ⟨by decide, Nat.lt_of_lt_of_le (by decide) h8⟩, by omega⟩

/-- C8, evaluated at the failing input: the table
`[{if {2}, then 1}, {if {1}, then 2}]` is well formed for every layer state of at
least three bits (valid then-layers, non-empty if-masks), yet started with
exactly layer 1 active the re-entrant evaluation returns under no nesting
bound. -/
theorem C8_cyclic_table_does_not_terminate :
    (∀ w, valid_cfgs (w + 3) cyclic_cfgs = true) ∧
      ¬ ∃ fuel s2, (layer_state_changed_listener cyclic_cfgs fuel (BIT 1)).2 = some s2 := by
  refine ⟨cyclic_cfgs_valid, ?_⟩
  rintro ⟨fuel, s2, h⟩
  have h2 : BIT 1 = 2 := by decide
  rw [h2, cyclic_never_returns fuel] at h
  cases h

/-- C9 (a cyclic rule table can recurse forever): there are a two-rule table in
which the then-layer of each rule is an if-layer of the other, well formed for
every layer state of at least three bits, and an initial state inside those
bits, from which re-entrant evaluation exceeds every bound `n` on the number of
nested listener invocations. -/
theorem C9_cyclic_table_recurses_forever :
    ∃ (r1 r2 : multi_layer_cfg) (s : zmk_keymap_layers_state_t),
      r2.if_layers_state_mask.testBit r1.then_layer = true ∧
      r1.if_layers_state_mask.testBit r2.then_layer = true ∧
      (∀ w, valid_cfgs (w + 3) [r1, r2] = true) ∧
      s < 2 ^ 3 ∧
      ∀ n, (layer_state_changed_listener [r1, r2] n s).2 = none :=
  ⟨⟨BIT 2, 1⟩, ⟨BIT 1, 2⟩, 2, by decide, by decide, cyclic_cfgs_valid, by decide,
    cyclic_never_returns⟩

/-- C10 (rule-order independence of a pass): for a table with pairwise distinct
then-layers, a non-re-entrant pass over any permutation of the table returns in
the same layer state as the pass over the table itself, from every snapshot. -/
theorem C10_pass_order_independent (cfgs cfgs2 : List multi_layer_cfg)
    (s : zmk_keymap_layers_state_t) (hperm : cfgs2.Perm cfgs)
    (hnodup : (cfgs.map multi_layer_cfg.then_layer).Nodup) :
    ∃ s2, (listener_pass cfgs s).2 = some s2 ∧ (listener_pass cfgs2 s).2 = some s2 := by
  obtain ⟨a, ha, _, _⟩ := scan_no_dispatch_spec s cfgs s
  obtain ⟨b, hb, _, _⟩ := scan_no_dispatch_spec s cfgs2 s
  have hnodup2 : (cfgs2.map multi_layer_cfg.then_layer).Nodup :=
    (List.Perm.nodup_iff (List.Perm.map _ hperm)).mpr hnodup
  have hab : b = a := by
    apply Nat.eq_of_testBit_eq
    intro i
    have h1 := pass_bit_of_nodup s cfgs hnodup s a ha i
    have h2 := pass_bit_of_nodup s cfgs2 hnodup2 s b hb i
    by_cases hex : ∃ r ∈ cfgs, r.then_layer = i
    · obtain ⟨r, hr, hri⟩ := hex
      rw [h1.1 r hr hri, h2.1 r (hperm.mem_iff.mpr hr) hri]
    · have hno : ∀ r ∈ cfgs, r.then_layer ≠ i := fun r hr hri => hex ⟨r, hr, hri⟩
      rw [h1.2 hno, h2.2 (fun r hr => hno r (hperm.mem_iff.mp hr))]
  refine ⟨a, ha, ?_⟩
  rw [← hab]
  exact hb

theorem C10_pass_order_independent_witness :
    ∃ s2, (listener_pass [⟨BIT 1, 3⟩, ⟨BIT 3, 4⟩, ⟨BIT 2, 1⟩] 10).2 = some s2 ∧
      (listener_pass [⟨BIT 3, 4⟩, ⟨BIT 1, 3⟩, ⟨BIT 2, 1⟩] 10).2 = some s2 :=
  C10_pass_order_independent [⟨BIT 1, 3⟩, ⟨BIT 3, 4⟩, ⟨BIT 2, 1⟩]
    [⟨BIT 3, 4⟩, ⟨BIT 1, 3⟩, ⟨BIT 2, 1⟩] 10 (List.Perm.swap _ _ _) (by decide)

/-! ## The if-mask of a declaration -/

theorem testBit_if_layers_mask (ls : List Nat) (j : Nat) :
    (if_layers_mask ls).testBit j = true ↔ j ∈ ls := by
  induction ls with
  | nil => simp [if_layers_mask]
  | cons i rest ih =>
    simp only [if_layers_mask, Nat.testBit_or, testBit_BIT, Bool.or_eq_true, decide_eq_true_eq,
      List.mem_cons, ih]
    constructor
    · rintro (h | h)
      · exact Or.inl h.symm
      · exact Or.inr h
    · rintro (h | h)
      · exact Or.inl h.symm
      · exact Or.inr h

theorem if_layers_mask_lt (w : Nat) (ls : List Nat) (hw : ∀ i ∈ ls, i < w) :
    if_layers_mask ls < 2 ^ w := by
  induction ls with
  | nil => exact Nat.two_pow_pos w
  | cons i rest ih =>
    unfold if_layers_mask
    rw [BIT_eq]
    exact Nat.or_lt_two_pow
      (Nat.pow_lt_pow_right (by decide) (hw i (List.mem_cons_self _ _)))
      (ih (fun k hk => hw k (List.mem_cons_of_mem _ hk)))

/-- The if-condition of a configuration depends on the snapshot only through the
bits of its if-mask. -/
theorem if_condition_congr (x y : zmk_keymap_layers_state_t) (d : multi_layer_cfg)
    (h : ∀ i, d.if_layers_state_mask.testBit i = true → x.testBit i = y.testBit i) :
    if_condition x d = if_condition y d := by
  rw [Bool.eq_iff_iff]
  unfold if_condition
  rw [mask_test_iff, mask_test_iff]
  constructor
  · intro hx i hi
    rw [← h i hi]; exact hx i hi
  · intro hy i hi
    rw [h i hi]; exact hy i hi

/-! ## Calls and the state they write -/

theorem testBit_written_state (snap : zmk_keymap_layers_state_t) (c : multi_layer_cfg)
    (live : zmk_keymap_layers_state_t) (i : Nat) :
    (written_state snap c live).testBit i =
      if c.then_layer = i then if_condition snap c else live.testBit i := by
  unfold written_state
  cases hc : if_condition snap c
  · simp only [Bool.false_eq_true, if_false, testBit_clear_layer]
    by_cases hi : c.then_layer = i <;> simp [hi]
  · simp only [if_true, testBit_set_layer]
    by_cases hi : c.then_layer = i <;> simp [hi]

theorem issued_call_layer (snap : zmk_keymap_layers_state_t) (c : multi_layer_cfg) :
    (issued_call snap c).layer = c.then_layer := by
  unfold issued_call
  cases if_condition snap c <;> rfl

/-- When the then-layer disagrees with the if-condition on the snapshot, the
loop body issues the one call that makes it agree, and the dispatch runs on the
state that call writes. -/
theorem loop_body_mismatch (raise : Dispatch) (snap : zmk_keymap_layers_state_t)
    (c : multi_layer_cfg) (live : zmk_keymap_layers_state_t)
    (h : zmk_keymap_layer_active live c.then_layer ≠ if_condition snap c) :
    loop_body raise snap c live =
      (⟨issued_call snap c, live⟩ :: (raise (written_state snap c live)).1,
        (raise (written_state snap c live)).2) := by
  cases hc : if_condition snap c
  · rw [hc] at h
    have ha : zmk_keymap_layer_active live c.then_layer = true := by
      simpa using h
    rw [loop_body_deactivate raise snap c live hc ha]
    simp [issued_call, written_state, hc]
  · rw [hc] at h
    have ha : zmk_keymap_layer_active live c.then_layer = false := by
      simpa using h
    rw [loop_body_activate raise snap c live hc ha]
    simp [issued_call, written_state, hc]

/-! ## Frame: only then-layers are written -/

/-- When the dispatch only issues calls on then-layers of the table and leaves
every other layer as it found it, so does the loop over any part of the table. -/
theorem scan_frame (cfgs : List multi_layer_cfg) (raise : Dispatch)
    (snap : zmk_keymap_layers_state_t)
    (hraise : ∀ x, (∀ e ∈ (raise x).1, ∃ c ∈ cfgs, e.call.layer = c.then_layer) ∧
      (∀ y, (raise x).2 = some y →
        ∀ i, (∀ c ∈ cfgs, c.then_layer ≠ i) → y.testBit i = x.testBit i)) :
    ∀ (rules : List multi_layer_cfg) (live : zmk_keymap_layers_state_t),
      (∀ c ∈ rules, c ∈ cfgs) →
      (∀ e ∈ (scan raise snap rules live).1, ∃ c ∈ cfgs, e.call.layer = c.then_layer) ∧
      (∀ y, (scan raise snap rules live).2 = some y →
        ∀ i, (∀ c ∈ cfgs, c.then_layer ≠ i) → y.testBit i = live.testBit i) := by
  intro rules
  induction rules with
  | nil =>
    intro live _
    refine ⟨by simp [scan], ?_⟩
    intro y hy i _
    simp only [scan, Option.some.injEq] at hy
    rw [hy]
  | cons c rest ih =>
    intro live hsub
    have hc : c ∈ cfgs := hsub c (List.mem_cons_self _ _)
    have hrest : ∀ d ∈ rest, d ∈ cfgs := fun d hd => hsub d (List.mem_cons_of_mem _ hd)
    rw [scan_cons]
    by_cases hs : zmk_keymap_layer_active live c.then_layer = if_condition snap c
    · rw [loop_body_settled raise snap c live hs, andThen_nil_some]
      exact ih live hrest
    · rw [loop_body_mismatch raise snap c live hs]
      have he0 : ∃ d ∈ cfgs, (Issued.mk (issued_call snap c) live).call.layer = d.then_layer :=
        ⟨c, hc, issued_call_layer snap c⟩
      obtain ⟨hr1, hr2⟩ := hraise (written_state snap c live)
      cases hx : (raise (written_state snap c live)).2 with
      | none =>
        simp only [Outcome.andThen]
        refine ⟨?_, by simp⟩
        intro e he
        rcases List.mem_cons.mp he with he | he
        · rw [he]; exact he0
        · exact hr1 e he
      | some y =>
        simp only [Outcome.andThen]
        obtain ⟨ih1, ih2⟩ := ih y hrest
        refine ⟨?_, ?_⟩
        · intro e he
          simp only [List.cons_append, List.mem_cons, List.mem_append] at he
          rcases he with he | he | he
          · rw [he]; exact he0
          · exact hr1 e he
          · exact ih1 e he
        · intro y2 hy2 i hi
          rw [ih2 y2 hy2 i hi, hr2 y hx i hi, testBit_written_state, if_neg (hi c hc)]

theorem listener_frame (cfgs : List multi_layer_cfg) :
    ∀ (fuel : Nat) (s : zmk_keymap_layers_state_t),
      (∀ e ∈ (layer_state_changed_listener cfgs fuel s).1,
        ∃ c ∈ cfgs, e.call.layer = c.then_layer) ∧
      (∀ y, (layer_state_changed_listener cfgs fuel s).2 = some y →
        ∀ i, (∀ c ∈ cfgs, c.then_layer ≠ i) → y.testBit i = s.testBit i) := by
  intro fuel
  induction fuel with
  | zero =>
    intro s
    simp [layer_state_changed_listener]
  | succ n ih =>
    intro s
    exact scan_frame cfgs (layer_state_changed_listener cfgs n) s ih cfgs s (fun _ h => h)

/-! ## Tables without chains -/

theorem loop_body_congr (raise : Dispatch) (a b : zmk_keymap_layers_state_t)
    (d : multi_layer_cfg) (live : zmk_keymap_layers_state_t)
    (h : if_condition a d = if_condition b d) :
    loop_body raise a d live = loop_body raise b d live := by
  unfold if_condition at h
  unfold loop_body
  simp only [h]

/-- The loop depends on the snapshot only through the if-conditions of the
configurations it examines. -/
theorem scan_congr_snapshot (raise : Dispatch) (a b : zmk_keymap_layers_state_t) :
    ∀ (rules : List multi_layer_cfg), (∀ d ∈ rules, if_condition a d = if_condition b d) →
      ∀ live, scan raise a rules live = scan raise b rules live := by
  intro rules
  induction rules with
  | nil => intro _ live; rfl
  | cons c rest ih =>
    intro h live
    have hfun : scan raise a rest = scan raise b rest :=
      funext (ih (fun d hd => h d (List.mem_cons_of_mem _ hd)))
    rw [scan_cons, scan_cons, loop_body_congr raise a b c live (h c (List.mem_cons_self _ _)),
      hfun]

/-- A stretch of configurations whose then-layers already agree with their
if-conditions is passed over without a call. -/
theorem scan_append_settled (raise : Dispatch) (snap : zmk_keymap_layers_state_t)
    (rules : List multi_layer_cfg) (live : zmk_keymap_layers_state_t) :
    ∀ (pre : List multi_layer_cfg),
      (∀ d ∈ pre, zmk_keymap_layer_active live d.then_layer = if_condition snap d) →
      scan raise snap (pre ++ rules) live = scan raise snap rules live := by
  intro pre
  induction pre with
  | nil => intro _; rfl
  | cons c rest ih =>
    intro h
    rw [List.cons_append, scan_cons, loop_body_settled raise snap c live
      (h c (List.mem_cons_self _ _)), andThen_nil_some]
    exact ih (fun d hd => h d (List.mem_cons_of_mem _ hd))

theorem then_layer_before_split (pre post : List multi_layer_cfg) (r : multi_layer_cfg)
    (h : ((pre ++ r :: post).map multi_layer_cfg.then_layer).Nodup) :
    ∀ c ∈ pre, c.then_layer ≠ r.then_layer := by
  intro c hc hEq
  rw [List.map_append, List.map_cons] at h
  have h3 := (List.nodup_append.mp h).2.2
  exact h3 (List.mem_map_of_mem _ hc) (by rw [hEq]; exact List.mem_cons_self _ _)

theorem nodup_after_split (pre post : List multi_layer_cfg) (r : multi_layer_cfg)
    (h : ((pre ++ r :: post).map multi_layer_cfg.then_layer).Nodup) :
    (post.map multi_layer_cfg.then_layer).Nodup := by
  rw [List.map_append, List.map_cons] at h
  exact (List.nodup_cons.mp (List.nodup_append.mp h).2.1).2

/-- After a pass over `rules` every then-layer of `rules` carries the
if-condition of its rule on the snapshot, when the then-layers are pairwise
distinct. -/
theorem pass_settles (snap : zmk_keymap_layers_state_t) (rules : List multi_layer_cfg)
    (hnodup : (rules.map multi_layer_cfg.then_layer).Nodup)
    (live s2 : zmk_keymap_layers_state_t) (h : (scan no_dispatch snap rules live).2 = some s2) :
    ∀ d ∈ rules, zmk_keymap_layer_active s2 d.then_layer = if_condition snap d := by
  intro d hd
  exact (pass_bit_of_nodup snap rules hnodup live s2 h d.then_layer).1 d hd rfl

/-- On a table without chains, when the dispatch behaves like a pass on every
state whose unsettled configurations are fewer than `f`, the re-entrant loop
over the last at most `f` configurations behaves like the loop of a pass. -/
theorem scan_reentrant_eq_pass (cfgs : List multi_layer_cfg)
    (hnodup : (cfgs.map multi_layer_cfg.then_layer).Nodup)
    (hfree : ∀ c ∈ cfgs, ∀ d ∈ cfgs, d.if_layers_state_mask.testBit c.then_layer = false)
    (R : Dispatch) (f : Nat)
    (hR : ∀ (y : zmk_keymap_layers_state_t) (pre2 rules2 : List multi_layer_cfg),
      cfgs = pre2 ++ rules2 →
      (∀ d ∈ pre2, zmk_keymap_layer_active y d.then_layer = if_condition y d) →
      rules2.length < f → R y = listener_pass cfgs y)
    (snap : zmk_keymap_layers_state_t) :
    ∀ (rules pre : List multi_layer_cfg) (live : zmk_keymap_layers_state_t),
      cfgs = pre ++ rules → rules.length ≤ f →
      (∀ d ∈ cfgs, if_condition live d = if_condition snap d) →
      (∀ d ∈ pre, zmk_keymap_layer_active live d.then_layer = if_condition snap d) →
      scan R snap rules live = scan no_dispatch snap rules live := by
  intro rules
  induction rules with
  | nil => intro pre live _ _ _ _; rfl
  | cons c rest ih =>
    intro pre live hsplit hlen hconds hpre
    have hsplit2 : cfgs = (pre ++ [c]) ++ rest := by
      rw [hsplit, List.append_assoc, List.singleton_append]
    have hc : c ∈ cfgs := by
      rw [hsplit]; exact List.mem_append_right _ (List.mem_cons_self _ _)
    have hlen2 : rest.length < f := by
      rw [List.length_cons] at hlen
      exact hlen
    rw [scan_cons, scan_cons]
    by_cases hs : zmk_keymap_layer_active live c.then_layer = if_condition snap c
    · rw [loop_body_settled R snap c live hs, loop_body_settled no_dispatch snap c live hs,
        andThen_nil_some, andThen_nil_some]
      refine ih (pre ++ [c]) live hsplit2 (Nat.le_of_lt hlen2) hconds ?_
      intro d hd
      rcases List.mem_append.mp hd with hd | hd
      · exact hpre d hd
      · rw [List.mem_singleton.mp hd]; exact hs
    · rw [loop_body_mismatch R snap c live hs, loop_body_mismatch no_dispatch snap c live hs]
      have hwc : ∀ d ∈ cfgs,
          if_condition (written_state snap c live) d = if_condition snap d := by
        intro d hd
        rw [← hconds d hd]
        apply if_condition_congr
        intro i hi
        rw [testBit_written_state, if_neg]
        intro hci
        rw [← hci, hfree c hc d hd] at hi
        cases hi
      have hnd : ((pre ++ c :: rest).map multi_layer_cfg.then_layer).Nodup := by
        rw [← hsplit]; exact hnodup
      have hws : ∀ d ∈ pre ++ [c],
          zmk_keymap_layer_active (written_state snap c live) d.then_layer =
            if_condition (written_state snap c live) d := by
        intro d hd
        have hdc : d ∈ cfgs := by
          rw [hsplit2]; exact List.mem_append_left _ hd
        rw [hwc d hdc]
        unfold zmk_keymap_layer_active
        rw [testBit_written_state]
        rcases List.mem_append.mp hd with hd | hd
        · rw [if_neg (fun h => then_layer_before_split pre rest c hnd d hd h.symm)]
          exact hpre d hd
        · rw [List.mem_singleton.mp hd, if_pos rfl]
      have hRw : R (written_state snap c live) =
          scan no_dispatch snap rest (written_state snap c live) := by
        rw [hR (written_state snap c live) (pre ++ [c]) rest hsplit2 hws hlen2]
        unfold listener_pass
        rw [hsplit2, scan_append_settled no_dispatch _ rest _ (pre ++ [c]) hws]
        exact scan_congr_snapshot no_dispatch _ snap rest
          (fun d hd => hwc d (by rw [hsplit2]; exact List.mem_append_right _ hd)) _
      obtain ⟨sf, hsf, _, _⟩ := scan_no_dispatch_spec snap rest (written_state snap c live)
      have hrest : scan R snap rest sf = ([], some sf) :=
        scan_settled R snap rest sf
          (pass_settles snap rest (nodup_after_split pre rest c hnd) _ sf hsf)
      rw [hRw]
      simp [Outcome.andThen, no_dispatch, hsf, hrest]

/-- On a table with pairwise distinct then-layers none of which occurs in an
if-mask, re-entrant evaluation behaves like one pass as soon as the nesting
bound exceeds the number of configurations behind the settled start of the
table. -/
theorem listener_eq_pass (cfgs : List multi_layer_cfg)
    (hnodup : (cfgs.map multi_layer_cfg.then_layer).Nodup)
    (hfree : ∀ c ∈ cfgs, ∀ d ∈ cfgs, d.if_layers_state_mask.testBit c.then_layer = false) :
    ∀ (f : Nat) (y : zmk_keymap_layers_state_t) (pre rules : List multi_layer_cfg),
      cfgs = pre ++ rules →
      (∀ d ∈ pre, zmk_keymap_layer_active y d.then_layer = if_condition y d) →
      rules.length < f → layer_state_changed_listener cfgs f y = listener_pass cfgs y := by
  intro f
  induction f with
  | zero =>
    intro y pre rules _ _ hlen
    exact absurd hlen (Nat.not_lt_zero _)
  | succ f ih =>
    intro y pre rules hsplit hpre hlen
    have key := scan_reentrant_eq_pass cfgs hnodup hfree (layer_state_changed_listener cfgs f)
      f ih y rules pre y hsplit (Nat.le_of_lt_succ hlen) (fun _ _ => rfl) hpre
    have e1 : scan (layer_state_changed_listener cfgs f) y cfgs y =
        scan (layer_state_changed_listener cfgs f) y rules y := by
      rw [← scan_append_settled (layer_state_changed_listener cfgs f) y rules y pre hpre,
        ← hsplit]
    have e2 : scan no_dispatch y cfgs y = scan no_dispatch y rules y := by
      rw [← scan_append_settled no_dispatch y rules y pre hpre, ← hsplit]
    show scan (layer_state_changed_listener cfgs f) y cfgs y = scan no_dispatch y cfgs y
    rw [e1, e2, key]

/-- The calls of a pass over configurations with pairwise distinct then-layers:
one for each configuration whose then-layer disagrees with its if-condition on
the snapshot, in table order. -/
theorem pass_calls (snap s : zmk_keymap_layers_state_t) :
    ∀ (rules : List multi_layer_cfg) (live : zmk_keymap_layers_state_t),
      (rules.map multi_layer_cfg.then_layer).Nodup →
      (∀ d ∈ rules, live.testBit d.then_layer = s.testBit d.then_layer) →
      (scan no_dispatch snap rules live).1.map Issued.call =
        rules.filterMap (expected_call snap s) := by
  intro rules
  induction rules with
  | nil => intro live _ _; rfl
  | cons c rest ih =>
    intro live hnodup hlive
    have hnd2 : (rest.map multi_layer_cfg.then_layer).Nodup := by
      rw [List.map_cons] at hnodup
      exact (List.nodup_cons.mp hnodup).2
    have hcs : live.testBit c.then_layer = s.testBit c.then_layer :=
      hlive c (List.mem_cons_self _ _)
    rw [scan_cons]
    by_cases hs : zmk_keymap_layer_active live c.then_layer = if_condition snap c
    · have hn : expected_call snap s c = none := by
        unfold expected_call
        unfold zmk_keymap_layer_active at hs ⊢
        rw [← hcs, if_pos hs]
      rw [loop_body_settled no_dispatch snap c live hs, andThen_nil_some,
        List.filterMap_cons_none hn]
      exact ih live hnd2 (fun d hd => hlive d (List.mem_cons_of_mem _ hd))
    · have hn : expected_call snap s c = some (issued_call snap c) := by
        unfold expected_call
        unfold zmk_keymap_layer_active at hs ⊢
        rw [← hcs, if_neg hs]
      rw [loop_body_mismatch no_dispatch snap c live hs, List.filterMap_cons_some hn]
      have hih := ih (written_state snap c live) hnd2 (by
        intro d hd
        rw [testBit_written_state, if_neg]
        · exact hlive d (List.mem_cons_of_mem _ hd)
        · intro hEq
          rw [List.map_cons] at hnodup
          exact (List.nodup_cons.mp hnodup).1 (by rw [hEq]; exact List.mem_map_of_mem _ hd))
      simp only [no_dispatch, Outcome.andThen, List.singleton_append, List.map_cons, hih]

/-- Among the expected calls of configurations with pairwise distinct
then-layers, exactly one targets a layer whose configuration disagrees with the
state, and none targets any other layer. -/
theorem expected_calls_on_layer (snap s : zmk_keymap_layers_state_t) (T : Nat) :
    ∀ (rules : List multi_layer_cfg), (rules.map multi_layer_cfg.then_layer).Nodup →
      ((∃ c ∈ rules, c.then_layer = T ∧ zmk_keymap_layer_active s T ≠ if_condition snap c) →
        ((rules.filterMap (expected_call snap s)).filter (fun k => k.layer == T)).length = 1) ∧
      ((¬ ∃ c ∈ rules, c.then_layer = T ∧ zmk_keymap_layer_active s T ≠ if_condition snap c) →
        ((rules.filterMap (expected_call snap s)).filter (fun k => k.layer == T)).length = 0) := by
  intro rules
  induction rules with
  | nil =>
    intro _
    refine ⟨?_, fun _ => rfl⟩
    rintro ⟨c, hc, _⟩
    cases hc
  | cons c rest ih =>
    intro hnodup
    rw [List.map_cons] at hnodup
    obtain ⟨hnotin, hnd2⟩ := List.nodup_cons.mp hnodup
    obtain ⟨ih1, ih2⟩ := ih hnd2
    by_cases hs : zmk_keymap_layer_active s c.then_layer = if_condition snap c
    · have hn : expected_call snap s c = none := by
        unfold expected_call
        rw [if_pos hs]
      rw [List.filterMap_cons_none hn]
      have hiff : (∃ d ∈ c :: rest, d.then_layer = T ∧
            zmk_keymap_layer_active s T ≠ if_condition snap d) ↔
          (∃ d ∈ rest, d.then_layer = T ∧
            zmk_keymap_layer_active s T ≠ if_condition snap d) := by
        constructor
        · rintro ⟨d, hd, hdT, hne⟩
          rcases List.mem_cons.mp hd with hd | hd
          · exfalso
            rw [hd] at hdT hne
            rw [← hdT] at hne
            exact hne hs
          · exact ⟨d, hd, hdT, hne⟩
        · rintro ⟨d, hd, hdT, hne⟩
          exact ⟨d, List.mem_cons_of_mem _ hd, hdT, hne⟩
      rw [hiff]
      exact ⟨ih1, ih2⟩
    · have hn : expected_call snap s c = some (issued_call snap c) := by
        unfold expected_call
        rw [if_neg hs]
      rw [List.filterMap_cons_some hn]
      by_cases hT : c.then_layer = T
      · have hnone : ¬ ∃ d ∈ rest, d.then_layer = T ∧
            zmk_keymap_layer_active s T ≠ if_condition snap d := by
          rintro ⟨d, hd, hdT, _⟩
          exact hnotin (by rw [hT, ← hdT]; exact List.mem_map_of_mem _ hd)
        have hp : (fun k : Call => k.layer == T) (issued_call snap c) = true := by
          simp [issued_call_layer, hT]
        rw [List.filter_cons_of_pos (p := fun k : Call => k.layer == T) hp, List.length_cons,
          ih2 hnone]
        refine ⟨fun _ => rfl, ?_⟩
        intro hno
        exfalso
        exact hno ⟨c, List.mem_cons_self _ _, hT, by rw [← hT]; exact hs⟩
      · have hp : ¬ (fun k : Call => k.layer == T) (issued_call snap c) = true := by
          simp [issued_call_layer, hT]
        rw [List.filter_cons_of_neg (p := fun k : Call => k.layer == T) hp]
        have hiff : (∃ d ∈ c :: rest, d.then_layer = T ∧
              zmk_keymap_layer_active s T ≠ if_condition snap d) ↔
            (∃ d ∈ rest, d.then_layer = T ∧
              zmk_keymap_layer_active s T ≠ if_condition snap d) := by
          constructor
          · rintro ⟨d, hd, hdT, hne⟩
            rcases List.mem_cons.mp hd with hd | hd
            · exfalso
              rw [hd] at hdT
              exact hT hdT
            · exact ⟨d, hd, hdT, hne⟩
          · rintro ⟨d, hd, hdT, hne⟩
            exact ⟨d, List.mem_cons_of_mem _ hd, hdT, hne⟩
        rw [hiff]
        exact ⟨ih1, ih2⟩

/-! ## The claims, continued -/

/-- C11 (if-mask construction and the condition test): for every list of
if-layer indices below the width of the layer state, the mask that
`MULTI_LAYER_DECL` builds stays inside the width and has bit `j` set if and only
if `j` is listed; consequently the listener's test `(s & mask) == mask` holds if
and only if every listed if-layer is active in `s`. -/
theorem C11_if_mask_and_condition (if_layers : List Nat) (then_layer w : Nat)
    (hw : ∀ i ∈ if_layers, i < w) :
    (MULTI_LAYER_DECL if_layers then_layer).if_layers_state_mask < 2 ^ w ∧
      (∀ j, (MULTI_LAYER_DECL if_layers then_layer).if_layers_state_mask.testBit j = true ↔
        j ∈ if_layers) ∧
      (∀ s : zmk_keymap_layers_state_t,
        ((s &&& (MULTI_LAYER_DECL if_layers then_layer).if_layers_state_mask) ==
            (MULTI_LAYER_DECL if_layers then_layer).if_layers_state_mask) = true ↔
          ∀ i ∈ if_layers, zmk_keymap_layer_active s i = true) := by
  refine ⟨if_layers_mask_lt w if_layers hw, testBit_if_layers_mask if_layers, ?_⟩
  intro s
  rw [mask_test_iff]
  unfold zmk_keymap_layer_active
  constructor
  · intro h i hi
    exact h i ((testBit_if_layers_mask if_layers i).mpr hi)
  · intro h i hi
    exact h i ((testBit_if_layers_mask if_layers i).mp hi)

theorem C11_if_mask_and_condition_witness :
    (MULTI_LAYER_DECL [1, 2] 3).if_layers_state_mask < 2 ^ 32 ∧
      ((MULTI_LAYER_DECL [1, 2] 3).if_layers_state_mask.testBit 2 = true ↔ 2 ∈ [1, 2]) ∧
      (((14 &&& (MULTI_LAYER_DECL [1, 2] 3).if_layers_state_mask) ==
          (MULTI_LAYER_DECL [1, 2] 3).if_layers_state_mask) = true ↔
        ∀ i ∈ [1, 2], zmk_keymap_layer_active 14 i = true) :=
  ⟨(C11_if_mask_and_condition [1, 2] 3 32 (by decide)).1,
    (C11_if_mask_and_condition [1, 2] 3 32 (by decide)).2.1 2,
    (C11_if_mask_and_condition [1, 2] 3 32 (by decide)).2.2 14⟩

/-- C12, the claim as stated fails: on the chained table the first pass from
`{1}` activates layer 2 only, and the second pass then activates layer 3; on a
table with two rules for one then-layer the first pass from `{1}` activates and
deactivates layer 3, and the second pass does so again. -/
theorem C12_second_pass_issues_calls :
    ((listener_pass (chain_cfgs 1 2 3) 2).2 = some 6 ∧
        (listener_pass (chain_cfgs 1 2 3) 6).1 = [⟨Call.activate 3, 6⟩]) ∧
      ((listener_pass shared_then_cfgs 2).2 = some 2 ∧
        (listener_pass shared_then_cfgs 2).1 =
          [⟨Call.activate 3, 2⟩, ⟨Call.deactivate 3, 10⟩]) := by
  decide

/-- C12 as amended: for every rule table whose then-layers are pairwise distinct
and in which no then-layer occurs in any rule's if-mask, and every initial
state, the non-re-entrant pass returns, and a second pass run on the state it
returned in issues no call and leaves that state as it is. -/
theorem C12_pass_idempotent_without_chains (cfgs : List multi_layer_cfg)
    (hnodup : (cfgs.map multi_layer_cfg.then_layer).Nodup)
    (hfree : ∀ c ∈ cfgs, ∀ d ∈ cfgs, d.if_layers_state_mask.testBit c.then_layer = false)
    (s : zmk_keymap_layers_state_t) :
    ∃ s1, (listener_pass cfgs s).2 = some s1 ∧ listener_pass cfgs s1 = ([], some s1) := by
  obtain ⟨s1, h1, hframe, _⟩ := scan_no_dispatch_spec s cfgs s
  refine ⟨s1, h1, ?_⟩
  apply scan_settled
  intro d hd
  rw [pass_settles s cfgs hnodup s s1 h1 d hd]
  apply if_condition_congr
  intro i hi
  symm
  apply hframe
  intro c hc hci
  rw [← hci, hfree c hc d hd] at hi
  cases hi

theorem C12_pass_idempotent_without_chains_witness :
    ∃ s1, (listener_pass [⟨BIT 1 ||| BIT 2, 3⟩, ⟨BIT 1, 4⟩] 6).2 = some s1 ∧
      listener_pass [⟨BIT 1 ||| BIT 2, 3⟩, ⟨BIT 1, 4⟩] s1 = ([], some s1) :=
  C12_pass_idempotent_without_chains [⟨BIT 1 ||| BIT 2, 3⟩, ⟨BIT 1, 4⟩] (by decide) (by decide) 6

/-- C13 (a rule with an empty if-mask is permanently active): for a rule whose
if-mask is 0 and which is the last rule in table order targeting its then-layer
`T`, the condition `(s & 0) == 0` holds for every snapshot `s`, and every
non-re-entrant pass returns in a state in which `T` is active, whichever layers
were active before. -/
theorem C13_empty_mask_always_active (pre post : List multi_layer_cfg) (r : multi_layer_cfg)
    (hmask : r.if_layers_state_mask = 0)
    (hlast : ∀ c ∈ post, c.then_layer ≠ r.then_layer) (s : zmk_keymap_layers_state_t) :
    ((s &&& r.if_layers_state_mask) == r.if_layers_state_mask) = true ∧
      ∃ s2, (listener_pass (pre ++ r :: post) s).2 = some s2 ∧
        zmk_keymap_layer_active s2 r.then_layer = true := by
  have hc : ((s &&& r.if_layers_state_mask) == r.if_layers_state_mask) = true := by
    rw [hmask]
    simp
  refine ⟨hc, ?_⟩
  obtain ⟨s2, h2, _, hl⟩ := scan_no_dispatch_spec s (pre ++ r :: post) s
  refine ⟨s2, h2, ?_⟩
  unfold zmk_keymap_layer_active
  rw [hl pre r post rfl hlast]
  exact hc

theorem C13_empty_mask_always_active_witness :
    ((0 &&& (0 : Nat)) == 0) = true ∧
      ∃ s2, (listener_pass ([⟨BIT 1, 3⟩] ++ ⟨0, 3⟩ :: [⟨BIT 1, 4⟩]) 0).2 = some s2 ∧
        zmk_keymap_layer_active s2 3 = true :=
  C13_empty_mask_always_active [⟨BIT 1, 3⟩] [⟨BIT 1, 4⟩] ⟨0, 3⟩ rfl (by decide) 0

/-- C14 (total correctness for chain-free tables): for every rule table whose
then-layers are pairwise distinct and in which no then-layer occurs in any
rule's if-mask, and every initial state `s`, re-entrant evaluation returns under
every nesting bound above the number of rules; in the state it returns in every
then-layer is active if and only if its rule's if-condition holds in `s`; the
complete trace holds exactly one call on each then-layer whose initial state
differs from its rule's condition and no call on any other layer; so it holds at
most one call per rule. -/
theorem C14_chain_free_total_correctness (cfgs : List multi_layer_cfg)
    (hnodup : (cfgs.map multi_layer_cfg.then_layer).Nodup)
    (hfree : ∀ c ∈ cfgs, ∀ d ∈ cfgs, d.if_layers_state_mask.testBit c.then_layer = false)
    (s : zmk_keymap_layers_state_t) (k : Nat) :
    ∃ s2, (layer_state_changed_listener cfgs (cfgs.length + 1 + k) s).2 = some s2 ∧
      (∀ c ∈ cfgs, (zmk_keymap_layer_active s2 c.then_layer = true ↔
        (s &&& c.if_layers_state_mask) = c.if_layers_state_mask)) ∧
      (∀ T, (∃ c ∈ cfgs, c.then_layer = T ∧
            zmk_keymap_layer_active s T ≠ if_condition s c) →
        (((layer_state_changed_listener cfgs (cfgs.length + 1 + k) s).1.map
          Issued.call).filter (fun call => call.layer == T)).length = 1) ∧
      (∀ T, (¬ ∃ c ∈ cfgs, c.then_layer = T ∧
            zmk_keymap_layer_active s T ≠ if_condition s c) →
        (((layer_state_changed_listener cfgs (cfgs.length + 1 + k) s).1.map
          Issued.call).filter (fun call => call.layer == T)).length = 0) ∧
      (layer_state_changed_listener cfgs (cfgs.length + 1 + k) s).1.length ≤ cfgs.length := by
  have heq : layer_state_changed_listener cfgs (cfgs.length + 1 + k) s = listener_pass cfgs s :=
    listener_eq_pass cfgs hnodup hfree (cfgs.length + 1 + k) s [] cfgs rfl
      (fun d hd => by cases hd) (by omega)
  have hcalls : (listener_pass cfgs s).1.map Issued.call =
      cfgs.filterMap (expected_call s s) :=
    pass_calls s s cfgs s hnodup (fun _ _ => rfl)
  obtain ⟨s2, h2, _, _⟩ := scan_no_dispatch_spec s cfgs s
  rw [heq]
  refine ⟨s2, h2, ?_, ?_, ?_, ?_⟩
  · intro c hc
    rw [pass_settles s cfgs hnodup s s2 h2 c hc]
    unfold if_condition
    exact beq_iff_eq
  · intro T hex
    rw [hcalls]
    exact (expected_calls_on_layer s s T cfgs hnodup).1 hex
  · intro T hno
    rw [hcalls]
    exact (expected_calls_on_layer s s T cfgs hnodup).2 hno
  · have hlen := congrArg List.length hcalls
    rw [List.length_map] at hlen
    rw [hlen]
    exact List.length_filterMap_le _ _

theorem C14_chain_free_total_correctness_witness :
    ∃ s2, (layer_state_changed_listener [⟨BIT 1 ||| BIT 2, 3⟩, ⟨BIT 1, 4⟩] 3 6).2 = some s2 ∧
      zmk_keymap_layer_active s2 3 = true ∧
      (((layer_state_changed_listener [⟨BIT 1 ||| BIT 2, 3⟩, ⟨BIT 1, 4⟩] 3 6).1.map
        Issued.call).filter (fun call => call.layer == 4)).length = 1 ∧
      (((layer_state_changed_listener [⟨BIT 1 ||| BIT 2, 3⟩, ⟨BIT 1, 4⟩] 3 6).1.map
        Issued.call).filter (fun call => call.layer == 1)).length = 0 ∧
      (layer_state_changed_listener [⟨BIT 1 ||| BIT 2, 3⟩, ⟨BIT 1, 4⟩] 3 6).1.length ≤ 2 := by
  obtain ⟨s2, h1, h2, h3, h4, h5⟩ :=
    C14_chain_free_total_correctness [⟨BIT 1 ||| BIT 2, 3⟩, ⟨BIT 1, 4⟩] (by decide) (by decide)
      6 0
  exact ⟨s2, h1, (h2 ⟨BIT 1 ||| BIT 2, 3⟩ (by decide)).mpr (by decide),
    h3 4 (by decide), h4 1 (by decide), h5⟩

/-- C15 (frame, only then-layers are touched): every primitive call issued
during re-entrant evaluation, nested invocations included, targets the
then-layer of some rule of the table; whenever the evaluation returns, every
layer that is the then-layer of no rule is in the final state as it was in the
initial state; and with an empty table one invocation issues no call and leaves
the state unchanged. -/
theorem C15_only_then_layers_touched (cfgs : List multi_layer_cfg) (fuel : Nat)
    (s : zmk_keymap_layers_state_t) :
    (∀ e ∈ (layer_state_changed_listener cfgs fuel s).1,
        ∃ c ∈ cfgs, e.call.layer = c.then_layer) ∧
      (∀ s2, (layer_state_changed_listener cfgs fuel s).2 = some s2 →
        ∀ i, (∀ c ∈ cfgs, c.then_layer ≠ i) →
          zmk_keymap_layer_active s2 i = zmk_keymap_layer_active s i) ∧
      layer_state_changed_listener [] (fuel + 1) s = ([], some s) :=
  ⟨(listener_frame cfgs fuel s).1, (listener_frame cfgs fuel s).2, rfl⟩

theorem C15_only_then_layers_touched_witness :
    (∃ c ∈ chain_cfgs 1 2 3, (Issued.mk (Call.deactivate 3) 14).call.layer = c.then_layer) ∧
      zmk_keymap_layer_active 14 1 = zmk_keymap_layer_active 2 1 :=
  ⟨(C15_only_then_layers_touched (chain_cfgs 1 2 3) 3 2).1 ⟨Call.deactivate 3, 14⟩ (by decide),
    (C15_only_then_layers_touched (chain_cfgs 1 2 3) 3 2).2.1 14 (by decide) 1 (by decide)⟩

end MultiLayer
